import Mathlib

/-!
Verification of the `jss::indexed_view` adapter (indexed_view.hpp).

The adapter wraps an underlying range, given as an iterator/sentinel pair,
and yields `{index, value}` pairs.  We shallowly embed the header:

* the template parameters `UnderlyingIterator` / `UnderlyingSentinel` and
  the operations the adapter requires of them (`operator++`, `operator*`,
  `operator!=` against the sentinel) become a `Source` structure over
  abstract types `Pos`, `Lim`, `Val`;
* `size_t` arithmetic is `Nat` with an explicit `% 2 ^ 64`;
* the iterator's raw `aligned_storage` union, discriminated by the stored
  index, becomes a `Sum Pos Lim` field; reading the union through the wrong
  alternative is undefined behaviour in C++ and is modelled as `none`;
* every fallible / UB-prone operation returns `Option`.
-/

/-- The operations `indexed_view_type` requires of the underlying
iterator/sentinel pair: `++it` (step), `*it` (deref), and the source's own
comparison `it != sentinel` (ne). -/
structure Source (Pos Lim Val : Type) where
  step : Pos → Pos
  deref : Pos → Val
  ne : Pos → Lim → Bool

/-- Modulus of `size_t` arithmetic (64-bit). -/
def size_t_mod : Nat := 2 ^ 64

/-- `static constexpr size_t sentinel_marker = ~static_cast<size_t>(0);` -/
def sentinel_marker : Nat := size_t_mod - 1

/-- `indexed_view_type::value_type`: an index/value pair. -/
structure value_type (Val : Type) where
  index : Nat
  value : Val
deriving DecidableEq, Repr

/-- `indexed_view_type::iterator`: the stored `size_t index` plus the raw
storage that holds either an `UnderlyingIterator` or an
`UnderlyingSentinel`.  The C++ storage is an untyped `aligned_storage`
reinterpreted on access; here the `Sum` records which object is actually
alive in it. -/
structure iterator (Pos Lim : Type) where
  index : Nat
  storage : Sum Pos Lim
deriving DecidableEq, Repr

namespace iterator

variable {Pos Lim Val : Type}

/-- `is_iterator()`: `return index != sentinel_marker;` — the discriminant
is the index alone, never the storage. -/
def is_iterator (it : iterator Pos Lim) : Bool :=
  decide (it.index ≠ sentinel_marker)

/-- `get_source_iterator()`: reinterpret the storage as an
`UnderlyingIterator`.  UB (hence `none`) when the storage actually holds a
sentinel. -/
def get_source_iterator (it : iterator Pos Lim) : Option Pos :=
  match it.storage with
  | Sum.inl p => some p
  | Sum.inr _ => none

/-- `get_sentinel()`: reinterpret the storage as an `UnderlyingSentinel`.
UB (hence `none`) when the storage actually holds an iterator. -/
def get_sentinel (it : iterator Pos Lim) : Option Lim :=
  match it.storage with
  | Sum.inl _ => none
  | Sum.inr l => some l

/-- `operator!=`: dispatches on `is_iterator()` of both sides; two
iterators compare by index alone, an iterator and a sentinel by the
source's own `!=`, the mixed case delegates to the swapped call
(`return rhs != lhs;`, here unfolded one step: with `rhs` an iterator and
`lhs` not, the swapped call takes the iterator-vs-sentinel branch —
`ne_swap` below checks this unfolding), and two sentinels are never
unequal. -/
def ne (S : Source Pos Lim Val) (lhs rhs : iterator Pos Lim) : Option Bool :=
  if lhs.is_iterator then
    if rhs.is_iterator then
      some (decide (lhs.index ≠ rhs.index))
    else
      (lhs.get_source_iterator).bind fun p =>
        (rhs.get_sentinel).map fun l => S.ne p l
  else
    if rhs.is_iterator then
      (rhs.get_source_iterator).bind fun p =>
        (lhs.get_sentinel).map fun l => S.ne p l
    else
      some false

/-- `operator==`: `return !(lhs != rhs);` -/
def eq (S : Source Pos Lim Val) (lhs rhs : iterator Pos Lim) : Option Bool :=
  (ne S lhs rhs).map fun b => !b

/-- `operator*`: `return value_type{index, *get_source_iterator()};` —
reads the storage as an iterator unconditionally. -/
def deref (S : Source Pos Lim Val) (it : iterator Pos Lim) :
    Option (value_type Val) :=
  (it.get_source_iterator).map fun p => ⟨it.index, S.deref p⟩

/-- `operator++` (pre-increment): `++get_source_iterator(); ++index;` —
steps the stored underlying iterator and bumps the `size_t` index. -/
def inc (S : Source Pos Lim Val) (it : iterator Pos Lim) :
    Option (iterator Pos Lim) :=
  (it.get_source_iterator).map fun p =>
    ⟨(it.index + 1) % size_t_mod, Sum.inl (S.step p)⟩

/-- `inc` iterated: the effect of `k` pre-increments. -/
def incN (S : Source Pos Lim Val) : Nat → iterator Pos Lim →
    Option (iterator Pos Lim)
  | 0, it => some it
  | k + 1, it => (inc S it).bind (incN S k)

end iterator

/-- `iterator::postinc_return`: proxy returned by post-increment, holding
the value observed before the advance. -/
structure postinc_return (Val : Type) where
  value : value_type Val
deriving DecidableEq, Repr

/-- `postinc_return::operator*`: hands out the stored value. -/
def postinc_return.star {Val : Type} (p : postinc_return Val) :
    value_type Val :=
  p.value

namespace iterator

variable {Pos Lim Val : Type}

/-- `operator++(int)`: `postinc_return temp{**this}; ++*this; return temp;`
— dereference first, then advance, and return both the proxy and the
advanced iterator (the mutated `*this`). -/
def postinc (S : Source Pos Lim Val) (it : iterator Pos Lim) :
    Option (postinc_return Val × iterator Pos Lim) :=
  (deref S it).bind fun e =>
    (inc S it).map fun it2 => (⟨e⟩, it2)

/-- `construct_from`: copies the index, then placement-constructs only the
live alternative, chosen by `other.is_iterator()`; reading the storage
through the wrong alternative would be UB, hence `none` on a
discriminant/storage mismatch.  The move overload relocates the same
single payload and is modelled by the same function. -/
def construct_from (other : iterator Pos Lim) : Option (iterator Pos Lim) :=
  if other.is_iterator then
    (other.get_source_iterator).map fun p => ⟨other.index, Sum.inl p⟩
  else
    (other.get_sentinel).map fun l => ⟨other.index, Sum.inr l⟩

/-- `destroy()`: runs the destructor of the alternative selected by
`is_iterator()`; UB (`none`) when the storage holds the other one. -/
def destroy (it : iterator Pos Lim) : Option Unit :=
  if it.is_iterator then
    (it.get_source_iterator).map fun _ => ()
  else
    (it.get_sentinel).map fun _ => ()

/-- Copy/move assignment for distinct objects: `destroy(); construct_from(other);`
— the previously live payload is retired before the new one is built. -/
def assign (self other : iterator Pos Lim) : Option (iterator Pos Lim) :=
  (destroy self).bind fun _ => construct_from other

/-- The intended representation invariant: the discriminant (the index
test) agrees with which alternative the storage actually holds. -/
def wf (it : iterator Pos Lim) : Prop :=
  it.is_iterator = it.storage.isLeft

instance (it : iterator Pos Lim) : Decidable it.wf := by
  unfold wf; infer_instance

end iterator

/-- `detail::indexed_view_type`: stores the underlying begin/end pair. -/
structure indexed_view_type (Pos Lim : Type) where
  source_begin : Pos
  source_end : Lim
deriving DecidableEq, Repr

namespace indexed_view_type

variable {Pos Lim Val : Type}

/-- `begin()` as a state-passing method on `this`: the body
`return iterator(0, source_begin);` copy-constructs from the stored
member and leaves the view untouched, so the returned view state is the
input state. -/
def beginS (v : indexed_view_type Pos Lim) :
    iterator Pos Lim × indexed_view_type Pos Lim :=
  (⟨0, Sum.inl v.source_begin⟩, v)

/-- `end()` as a state-passing method: `return iterator(source_end);`
builds the sentinel-holding iterator with `index = sentinel_marker` and
leaves the view untouched. -/
def endS (v : indexed_view_type Pos Lim) :
    iterator Pos Lim × indexed_view_type Pos Lim :=
  (⟨sentinel_marker, Sum.inr v.source_end⟩, v)

/-- The iterator `begin()` returns. -/
def begin (v : indexed_view_type Pos Lim) : iterator Pos Lim :=
  (beginS v).1

/-- The iterator `end()` returns. -/
def end_ (v : indexed_view_type Pos Lim) : iterator Pos Lim :=
  (endS v).1

end indexed_view_type

/-- `jss::indexed_view(UnderlyingIterator, UnderlyingSentinel)`: the
explicit position+limit factory overload, which moves the pair into an
`indexed_view_type`. -/
def indexed_view {Pos Lim : Type} (source_begin : Pos) (source_end : Lim) :
    indexed_view_type Pos Lim :=
  ⟨source_begin, source_end⟩

/-- One range-for traversal `for (auto it = b; it != e; ++it) out.push_back(*it);`
with explicit fuel; `none` on UB or fuel exhaustion. -/
def traverse_from {Pos Lim Val : Type} (S : Source Pos Lim Val)
    (e : iterator Pos Lim) :
    Nat → iterator Pos Lim → Option (List (value_type Val))
  | 0, it =>
    match iterator.ne S it e with
    | some false => some []
    | _ => none
  | fuel + 1, it =>
    match iterator.ne S it e with
    | some false => some []
    | some true =>
      (iterator.deref S it).bind fun entry =>
        (iterator.inc S it).bind fun it2 =>
          (traverse_from S e fuel it2).map fun rest => entry :: rest
    | none => none

/-- The entries one full traversal of the view produces. -/
def view_entries {Pos Lim Val : Type} (S : Source Pos Lim Val)
    (v : indexed_view_type Pos Lim) (fuel : Nat) :
    Option (List (value_type Val)) :=
  traverse_from S v.end_ fuel v.begin

/-- A concrete restartable underlying range over a list, as an
iterator/sentinel pair of distinct types (heterogeneous termination, like
`my_range::iterator` / `my_range::sentinel` in the tests): the position is
the remaining suffix, the sentinel is the unit marker, and the range's own
`!=` reports whether elements remain. -/
def listSource (α : Type) [Inhabited α] : Source (List α) Unit α where
  step p := p.tail
  deref p := p.headI
  ne p _ := !p.isEmpty

/-- The view the explicit-pair factory builds over a whole list. -/
def listView {α : Type} (xs : List α) : indexed_view_type (List α) Unit :=
  indexed_view xs ()

/-- Expected output of a traversal starting at ordinal `k`: each element
paired with its zero-based position. -/
def indexedEntriesFrom {α : Type} (k : Nat) : List α → List (value_type α)
  | [] => []
  | x :: xs => ⟨k, x⟩ :: indexedEntriesFrom (k + 1) xs

/-- One full traversal as a state-passing operation on the view: take
`begin()` and `end()` from the view (each threading the view state) and
run the loop; return the entries together with the final view state. -/
def traverseView {Pos Lim Val : Type} (S : Source Pos Lim Val)
    (v : indexed_view_type Pos Lim) (fuel : Nat) :
    Option (List (value_type Val)) × indexed_view_type Pos Lim :=
  let b := v.beginS
  let e := b.2.endS
  (traverse_from S e.1 fuel b.1, e.2)

/- ------------------------------------------------------------------ -/
/- Theorems                                                            -/
/- ------------------------------------------------------------------ -/

theorem sentinel_marker_lt : sentinel_marker < size_t_mod := by
  norm_num [sentinel_marker, size_t_mod]

/-- The sentinel-vs-iterator branch of `operator!=` as embedded above is
exactly the swapped call `rhs != lhs` the C++ code makes there. -/
theorem ne_swap {Pos Lim Val : Type} (S : Source Pos Lim Val)
    (lhs rhs : iterator Pos Lim)
    (h1 : lhs.is_iterator = false) (h2 : rhs.is_iterator = true) :
    iterator.ne S lhs rhs = iterator.ne S rhs lhs := by
  simp [iterator.ne, h1, h2]

/-- Running the loop over a list suffix `xs` with current ordinal `k`
produces exactly the elements of `xs` paired with consecutive ordinals,
as long as the ordinals stay within `size_t` range. -/
theorem traverse_list {α : Type} [Inhabited α] :
    ∀ (xs : List α) (k fuel : Nat), k + xs.length ≤ sentinel_marker →
      xs.length ≤ fuel →
      traverse_from (listSource α) ⟨sentinel_marker, Sum.inr ()⟩ fuel
          ⟨k, Sum.inl xs⟩ =
        some (indexedEntriesFrom k xs)
  | [], k, fuel, _, _ => by
    have hne : iterator.ne (listSource α)
        (⟨k, Sum.inl []⟩ : iterator (List α) Unit)
        ⟨sentinel_marker, Sum.inr ()⟩ = some false := by
      by_cases hkm : k = sentinel_marker
      · simp [iterator.ne, iterator.is_iterator, hkm]
      · simp [iterator.ne, iterator.is_iterator, hkm,
          iterator.get_source_iterator, iterator.get_sentinel, listSource]
    cases fuel <;> simp [traverse_from, hne, indexedEntriesFrom]
  | x :: t, k, fuel, hk, hf => by
    have hklt : k < sentinel_marker := by
      simp [List.length_cons] at hk; omega
    cases fuel with
    | zero => simp [List.length_cons] at hf
    | succ f =>
      have hne : iterator.ne (listSource α)
          (⟨k, Sum.inl (x :: t)⟩ : iterator (List α) Unit)
          ⟨sentinel_marker, Sum.inr ()⟩ = some true := by
        simp [iterator.ne, iterator.is_iterator, Nat.ne_of_lt hklt,
          iterator.get_source_iterator, iterator.get_sentinel, listSource]
      have hmod : (k + 1) % size_t_mod = k + 1 := by
        apply Nat.mod_eq_of_lt
        have : k + 1 ≤ sentinel_marker := by
          simp [List.length_cons] at hk; omega
        exact Nat.lt_of_le_of_lt this sentinel_marker_lt
      have ih := traverse_list t (k + 1) f
        (by simp [List.length_cons] at hk; omega)
        (by simp [List.length_cons] at hf; omega)
      have hderef : iterator.deref (listSource α)
          (⟨k, Sum.inl (x :: t)⟩ : iterator (List α) Unit) = some ⟨k, x⟩ := by
        simp [iterator.deref, iterator.get_source_iterator, listSource]
      have hinc : iterator.inc (listSource α)
          (⟨k, Sum.inl (x :: t)⟩ : iterator (List α) Unit) =
          some ⟨k + 1, Sum.inl t⟩ := by
        simp [iterator.inc, iterator.get_source_iterator, listSource, hmod]
      simp [traverse_from, hne, hderef, hinc, ih, indexedEntriesFrom]

/-- `indexedEntriesFrom` keeps the length of the list. -/
theorem indexedEntriesFrom_length {α : Type} :
    ∀ (xs : List α) (k : Nat), (indexedEntriesFrom k xs).length = xs.length
  | [], _ => rfl
  | _ :: t, k => by
    simp [indexedEntriesFrom, indexedEntriesFrom_length t (k + 1)]

/-- The `i`-th entry of `indexedEntriesFrom k xs` is the `i`-th element of
`xs` paired with ordinal `k + i`. -/
theorem indexedEntriesFrom_getElem {α : Type} :
    ∀ (xs : List α) (k i : Nat) (x : α), xs[i]? = some x →
      (indexedEntriesFrom k xs)[i]? = some ⟨k + i, x⟩
  | [], _, i, _, h => by simp at h
  | y :: t, k, 0, x, h => by
    simp at h
    simp [indexedEntriesFrom, h]
  | y :: t, k, i + 1, x, h => by
    simp at h
    have := indexedEntriesFrom_getElem t (k + 1) i x h
    simp [indexedEntriesFrom, this]
    omega

/-- C1: For every source sequence with `n` elements, iterating the view
returned by `indexed_view` from `begin()` to `end()` produces exactly `n`
entries, and the `i`-th entry (0-based) has index `i` and value equal to
the `i`-th element of the source.  (The source must have at most
`2^64 - 1` elements, the largest count a `size_t` index can traverse.) -/
theorem indexed_view_enumerates_source {α : Type} [Inhabited α]
    (xs : List α) (h : xs.length ≤ sentinel_marker) :
    view_entries (listSource α) (listView xs) xs.length =
        some (indexedEntriesFrom 0 xs) ∧
    (indexedEntriesFrom 0 xs).length = xs.length ∧
    ∀ (i : Nat) (x : α), xs[i]? = some x →
      (indexedEntriesFrom 0 xs)[i]? = some ⟨i, x⟩ := by
  refine ⟨?_, indexedEntriesFrom_length xs 0, ?_⟩
  · have := traverse_list xs 0 xs.length (by omega) (Nat.le_refl _)
    simpa [view_entries, indexed_view_type.begin, indexed_view_type.end_,
      indexed_view_type.beginS, indexed_view_type.endS, listView,
      indexed_view] using this
  · intro i x hx
    simpa using indexedEntriesFrom_getElem xs 0 i x hx

/-- Witness for C1 at the spec's literal scenario `R = [42, 56, 99]`. -/
theorem indexed_view_enumerates_source_witness :
    ([42, 56, 99] : List Nat).length ≤ sentinel_marker ∧
    (view_entries (listSource Nat) (listView [42, 56, 99])
          ([42, 56, 99] : List Nat).length =
        some (indexedEntriesFrom 0 [42, 56, 99]) ∧
      (indexedEntriesFrom 0 ([42, 56, 99] : List Nat)).length =
        ([42, 56, 99] : List Nat).length ∧
      ∀ (i : Nat) (x : Nat), ([42, 56, 99] : List Nat)[i]? = some x →
        (indexedEntriesFrom 0 ([42, 56, 99] : List Nat))[i]? = some ⟨i, x⟩) :=
  ⟨by decide, indexed_view_enumerates_source [42, 56, 99] (by decide)⟩

/-- C2: Iterator equality follows three rules: two mid-sequence
(Positioned) iterators are equal iff their index values are equal (the
underlying positions `p`, `q` are arbitrary and not compared); a
mid-sequence iterator and a terminal (AtEnd) iterator are equal iff the
underlying position equals the limit under the source's own comparison
(in both argument orders); two terminal iterators are always equal; and
`operator==` is the negation of `operator!=` in every case. -/
theorem iterator_equality_rules {Pos Lim Val : Type} (S : Source Pos Lim Val)
    (i j : Nat) (p q : Pos) (l l' : Lim)
    (hi : i ≠ sentinel_marker) (hj : j ≠ sentinel_marker) :
    iterator.eq S ⟨i, Sum.inl p⟩ ⟨j, Sum.inl q⟩ = some (decide (i = j)) ∧
    iterator.eq S ⟨i, Sum.inl p⟩ ⟨sentinel_marker, Sum.inr l⟩ =
        some (!S.ne p l) ∧
    iterator.eq S ⟨sentinel_marker, Sum.inr l⟩ ⟨i, Sum.inl p⟩ =
        some (!S.ne p l) ∧
    iterator.eq S ⟨sentinel_marker, Sum.inr l⟩ ⟨sentinel_marker, Sum.inr l'⟩ =
        some true ∧
    ∀ a b : iterator Pos Lim,
      iterator.eq S a b = (iterator.ne S a b).map fun x => !x := by
  refine ⟨?_, ?_, ?_, ?_, fun a b => rfl⟩ <;>
    simp [iterator.eq, iterator.ne, iterator.is_iterator, hi, hj,
      iterator.get_source_iterator, iterator.get_sentinel]

/-- Witness for C2 at concrete iterators over a list source. -/
theorem iterator_equality_rules_witness :
    (0 ≠ sentinel_marker ∧ 1 ≠ sentinel_marker) ∧
    (iterator.eq (listSource Nat) ⟨0, Sum.inl [5]⟩ ⟨1, Sum.inl [9, 9]⟩ =
        some (decide ((0 : Nat) = 1)) ∧
      iterator.eq (listSource Nat) ⟨0, Sum.inl [5]⟩
          ⟨sentinel_marker, Sum.inr ()⟩ = some (!(listSource Nat).ne [5] ()) ∧
      iterator.eq (listSource Nat) ⟨sentinel_marker, Sum.inr ()⟩
          ⟨0, Sum.inl [5]⟩ = some (!(listSource Nat).ne [5] ()) ∧
      iterator.eq (listSource Nat) ⟨sentinel_marker, Sum.inr ()⟩
          ⟨sentinel_marker, Sum.inr ()⟩ = some true ∧
      ∀ a b : iterator (List Nat) Unit,
        iterator.eq (listSource Nat) a b =
          (iterator.ne (listSource Nat) a b).map fun x => !x) :=
  ⟨⟨by decide, by decide⟩,
    iterator_equality_rules (listSource Nat) 0 1 [5] [9, 9] () ()
      (by decide) (by decide)⟩

/-- C3: For every view over an empty source sequence, `begin() == end()`
holds immediately and the traversal produces zero entries (for any fuel
bound on the loop). -/
theorem empty_view_begin_eq_end {α : Type} [Inhabited α] :
    iterator.eq (listSource α) (listView ([] : List α)).begin
        (listView ([] : List α)).end_ = some true ∧
    ∀ fuel : Nat,
      view_entries (listSource α) (listView ([] : List α)) fuel = some [] := by
  constructor
  · simp [iterator.eq, iterator.ne, iterator.is_iterator,
      indexed_view_type.begin, indexed_view_type.end_,
      indexed_view_type.beginS, indexed_view_type.endS, listView,
      indexed_view, iterator.get_source_iterator, iterator.get_sentinel,
      listSource, sentinel_marker, size_t_mod]
  · intro fuel
    have := traverse_list ([] : List α) 0 fuel (by simp) (by simp)
    simpa [view_entries, indexed_view_type.begin, indexed_view_type.end_,
      indexed_view_type.beginS, indexed_view_type.endS, listView,
      indexed_view, indexedEntriesFrom] using this

/-- C4: `begin()` and `end()` (as state-passing methods) return the view
state unchanged — they never mutate the stored start position and end
limit — and therefore two complete traversals of the same view object,
the second starting from the view state the first left behind, produce
identical entry sequences.  Every `Source` of the embedding is pure,
hence restartable. -/
theorem begin_end_never_mutate_view {Pos Lim Val : Type}
    (S : Source Pos Lim Val) (v : indexed_view_type Pos Lim) (fuel : Nat) :
    (v.beginS).2 = v ∧
    (v.endS).2 = v ∧
    (traverseView S v fuel).2 = v ∧
    (traverseView S (traverseView S v fuel).2 fuel).1 =
        (traverseView S v fuel).1 :=
  ⟨rfl, rfl, rfl, rfl⟩

/-- C5: Pre-increment on a mid-sequence iterator advances the underlying
position by exactly one source step and the stored index by exactly one;
on an iterator whose storage holds the sentinel (the AtEnd payload) it is
undefined behaviour (`none`), never a recoverable result — so under the
Positioned precondition the sentinel alternative is never touched. -/
theorem pre_increment_advances {Pos Lim Val : Type} (S : Source Pos Lim Val)
    (i : Nat) (p : Pos) (hi : i < sentinel_marker) :
    iterator.inc S ⟨i, Sum.inl p⟩ = some ⟨i + 1, Sum.inl (S.step p)⟩ ∧
    ∀ (j : Nat) (l : Lim),
      iterator.inc S (⟨j, Sum.inr l⟩ : iterator Pos Lim) = none := by
  constructor
  · have hmod : (i + 1) % size_t_mod = i + 1 :=
      Nat.mod_eq_of_lt (Nat.lt_of_le_of_lt hi sentinel_marker_lt)
    simp [iterator.inc, iterator.get_source_iterator, hmod]
  · intro j l
    simp [iterator.inc, iterator.get_source_iterator]

/-- Witness for C5 at a concrete mid-sequence iterator. -/
theorem pre_increment_advances_witness :
    0 < sentinel_marker ∧
    (iterator.inc (listSource Nat) ⟨0, Sum.inl [7, 8]⟩ =
        some ⟨0 + 1, Sum.inl ((listSource Nat).step [7, 8])⟩ ∧
      ∀ (j : Nat) (l : Unit),
        iterator.inc (listSource Nat)
          (⟨j, Sum.inr l⟩ : iterator (List Nat) Unit) = none) :=
  ⟨by decide, pre_increment_advances (listSource Nat) 0 [7, 8] (by decide)⟩

/-- C6: Post-increment on a mid-sequence iterator returns a proxy whose
dereference (`star`) yields exactly the entry that dereferencing the
iterator produced before the advance, and leaves the iterator advanced by
one step with its index incremented by one. -/
theorem post_increment_returns_old_entry {Pos Lim Val : Type}
    (S : Source Pos Lim Val) (i : Nat) (p : Pos)
    (hi : i < sentinel_marker) :
    iterator.postinc S ⟨i, Sum.inl p⟩ =
        some (⟨⟨i, S.deref p⟩⟩, ⟨i + 1, Sum.inl (S.step p)⟩) ∧
    iterator.deref S ⟨i, Sum.inl p⟩ = some ⟨i, S.deref p⟩ ∧
    postinc_return.star ⟨⟨i, S.deref p⟩⟩ = ⟨i, S.deref p⟩ := by
  have hmod : (i + 1) % size_t_mod = i + 1 :=
    Nat.mod_eq_of_lt (Nat.lt_of_le_of_lt hi sentinel_marker_lt)
  refine ⟨?_, ?_, rfl⟩ <;>
    simp [iterator.postinc, iterator.deref, iterator.inc,
      iterator.get_source_iterator, hmod]

/-- Witness for C6 at a concrete mid-sequence iterator. -/
theorem post_increment_returns_old_entry_witness :
    2 < sentinel_marker ∧
    (iterator.postinc (listSource Nat) ⟨2, Sum.inl [9]⟩ =
        some (⟨⟨2, (listSource Nat).deref [9]⟩⟩,
          ⟨2 + 1, Sum.inl ((listSource Nat).step [9])⟩) ∧
      iterator.deref (listSource Nat) ⟨2, Sum.inl [9]⟩ =
        some ⟨2, (listSource Nat).deref [9]⟩ ∧
      postinc_return.star ⟨⟨2, (listSource Nat).deref [9]⟩⟩ =
        ⟨2, (listSource Nat).deref [9]⟩) :=
  ⟨by decide,
    post_increment_returns_old_entry (listSource Nat) 2 [9] (by decide)⟩

/-- `k` pre-increments over the list source advance the ordinal by `k`
and drop `k` elements of the suffix, while the ordinals stay in
`size_t` range. -/
theorem incN_listSource {α : Type} [Inhabited α] :
    ∀ (k i : Nat) (p : List α), i + k ≤ sentinel_marker →
      iterator.incN (listSource α) k ⟨i, Sum.inl p⟩ =
        some ⟨i + k, Sum.inl (p.drop k)⟩
  | 0, i, p, _ => by simp [iterator.incN]
  | k + 1, i, p, h => by
    have hmod : (i + 1) % size_t_mod = i + 1 := by
      apply Nat.mod_eq_of_lt
      have : i + 1 ≤ sentinel_marker := by omega
      exact Nat.lt_of_le_of_lt this sentinel_marker_lt
    have hinc : iterator.inc (listSource α)
        (⟨i, Sum.inl p⟩ : iterator (List α) Unit) =
        some ⟨i + 1, Sum.inl p.tail⟩ := by
      simp [iterator.inc, iterator.get_source_iterator, listSource, hmod]
    have ih := incN_listSource k (i + 1) p.tail (by omega)
    have hdrop : p.tail.drop k = p.drop (k + 1) := by
      cases p <;> simp
    have harith : i + 1 + k = i + (k + 1) := by omega
    simp [iterator.incN, hinc, ih, hdrop, harith]

/-- C7: For a view built by the explicit position+limit factory overload
from a start position and an end limit of different types (here the list
suffix vs the unit limit marker), over an underlying range with `n`
elements, `k` advances from `begin()` land on the iterator with index `k`
and the `k`-dropped suffix, and that iterator compares equal to `end()`
exactly when `k = n` — so the traversal reaches `end()` after exactly `n`
advances. -/
theorem heterogeneous_pair_terminates {α : Type} [Inhabited α]
    (xs : List α) (h : xs.length ≤ sentinel_marker)
    (k : Nat) (hk : k ≤ xs.length) :
    iterator.incN (listSource α) k (listView xs).begin =
        some ⟨k, Sum.inl (xs.drop k)⟩ ∧
    iterator.eq (listSource α) ⟨k, Sum.inl (xs.drop k)⟩ (listView xs).end_ =
        some (decide (k = xs.length)) := by
  constructor
  · have := incN_listSource k 0 xs (by omega)
    simpa [indexed_view_type.begin, indexed_view_type.beginS, listView,
      indexed_view] using this
  · have hend : (listView xs).end_ =
        (⟨sentinel_marker, Sum.inr ()⟩ : iterator (List α) Unit) := rfl
    by_cases hkm : k = sentinel_marker
    · have hlen : k = xs.length := by omega
      have h1 : iterator.eq (listSource α)
          (⟨k, Sum.inl (xs.drop k)⟩ : iterator (List α) Unit)
          ⟨sentinel_marker, Sum.inr ()⟩ = some true := by
        simp [iterator.eq, iterator.ne, iterator.is_iterator, hkm]
      have h2 : decide (k = xs.length) = true := by simp [hlen]
      rw [hend, h1, h2]
    · have hends : iterator.eq (listSource α)
          (⟨k, Sum.inl (xs.drop k)⟩ : iterator (List α) Unit)
          ⟨sentinel_marker, Sum.inr ()⟩ =
          some (xs.drop k).isEmpty := by
        simp [iterator.eq, iterator.ne, iterator.is_iterator, hkm,
          iterator.get_source_iterator, iterator.get_sentinel, listSource]
      have hempty : (xs.drop k).isEmpty = decide (k = xs.length) := by
        rcases hdk : xs.drop k with _ | ⟨y, ys⟩
        · have h0 : (xs.drop k).length = xs.length - k := List.length_drop k xs
          rw [hdk] at h0
          simp only [List.length_nil] at h0
          have hlen : k = xs.length := by omega
          simp [hlen]
        · have h0 : (xs.drop k).length = xs.length - k := List.length_drop k xs
          rw [hdk] at h0
          simp only [List.length_cons] at h0
          have hne2 : k ≠ xs.length := by omega
          simp [hne2]
      rw [hend, hends, hempty]

/-- Witness for C7 at the spec's one-pass scenario values `[5, 7, 9, 11]`
with `k = n = 4`. -/
theorem heterogeneous_pair_terminates_witness :
    ([5, 7, 9, 11] : List Nat).length ≤ sentinel_marker ∧
    (4 : Nat) ≤ ([5, 7, 9, 11] : List Nat).length ∧
    (iterator.incN (listSource Nat) 4 (listView [5, 7, 9, 11]).begin =
        some ⟨4, Sum.inl (([5, 7, 9, 11] : List Nat).drop 4)⟩ ∧
      iterator.eq (listSource Nat)
          ⟨4, Sum.inl (([5, 7, 9, 11] : List Nat).drop 4)⟩
          (listView [5, 7, 9, 11]).end_ =
        some (decide ((4 : Nat) = ([5, 7, 9, 11] : List Nat).length))) :=
  ⟨by decide, by decide,
    heterogeneous_pair_terminates [5, 7, 9, 11] (by decide) 4 (by decide)⟩

/-- C9: Copying (or moving) an iterator duplicates only the payload of the
live alternative together with the index — the `Sum`-typed storage can by
construction never hold both alternatives — reproducing an identical
iterator, and assignment retires the previous live payload (`destroy`)
before activating the new one (`construct_from`); consequently a copy has
the same live alternative and index as its original and compares equal to
it. -/
theorem copy_preserves_live_alternative {Pos Lim Val : Type}
    (S : Source Pos Lim Val) (self other : iterator Pos Lim)
    (hs : self.wf) (ho : other.wf) :
    iterator.construct_from other = some other ∧
    iterator.assign self other = some other ∧
    iterator.eq S other other = some true := by
  obtain ⟨si, ss⟩ := self
  obtain ⟨oi, os⟩ := other
  cases ss <;> cases os <;>
    simp_all [iterator.wf, iterator.is_iterator, iterator.construct_from,
      iterator.destroy, iterator.assign, iterator.get_source_iterator,
      iterator.get_sentinel, iterator.eq, iterator.ne]

/-- Witness for C9: a Positioned self and an AtEnd other over the list
source. -/
theorem copy_preserves_live_alternative_witness :
    (⟨0, Sum.inl [1, 2]⟩ : iterator (List Nat) Unit).wf ∧
    (⟨sentinel_marker, Sum.inr ()⟩ : iterator (List Nat) Unit).wf ∧
    (iterator.construct_from
        (⟨sentinel_marker, Sum.inr ()⟩ : iterator (List Nat) Unit) =
        some ⟨sentinel_marker, Sum.inr ()⟩ ∧
      iterator.assign (⟨0, Sum.inl [1, 2]⟩ : iterator (List Nat) Unit)
          ⟨sentinel_marker, Sum.inr ()⟩ = some ⟨sentinel_marker, Sum.inr ()⟩ ∧
      iterator.eq (listSource Nat)
          (⟨sentinel_marker, Sum.inr ()⟩ : iterator (List Nat) Unit)
          ⟨sentinel_marker, Sum.inr ()⟩ = some true) :=
  ⟨by decide, by decide,
    copy_preserves_live_alternative (listSource Nat) ⟨0, Sum.inl [1, 2]⟩
      ⟨sentinel_marker, Sum.inr ()⟩ (by decide) (by decide)⟩

/-- `k` pre-increments from a Positioned iterator leave the storage on the
underlying-iterator alternative, with the index accumulating mod `2^64`. -/
theorem incN_inl {Pos Lim Val : Type} (S : Source Pos Lim Val) :
    ∀ (k i : Nat) (p : Pos), i < size_t_mod →
      iterator.incN S k ⟨i, Sum.inl p⟩ =
        some ⟨(i + k) % size_t_mod, Sum.inl (S.step^[k] p)⟩
  | 0, i, p, h => by simp [iterator.incN, Nat.mod_eq_of_lt h]
  | k + 1, i, p, h => by
    have hinc : iterator.inc S (⟨i, Sum.inl p⟩ : iterator Pos Lim) =
        some ⟨(i + 1) % size_t_mod, Sum.inl (S.step p)⟩ := by
      simp [iterator.inc, iterator.get_source_iterator]
    have ih := incN_inl S k ((i + 1) % size_t_mod) (S.step p)
      (Nat.mod_lt _ (by norm_num [size_t_mod]))
    have harith : ((i + 1) % size_t_mod + k) % size_t_mod =
        (i + (k + 1)) % size_t_mod := by
      rw [Nat.mod_add_mod]
      congr 1
      omega
    have hiter : S.step^[k] (S.step p) = S.step^[k + 1] p :=
      (Function.iterate_succ_apply S.step k p).symm
    calc iterator.incN S (k + 1) ⟨i, Sum.inl p⟩
        = (iterator.inc S ⟨i, Sum.inl p⟩).bind (iterator.incN S k) := rfl
      _ = iterator.incN S k ⟨(i + 1) % size_t_mod, Sum.inl (S.step p)⟩ := by
            rw [hinc]; rfl
      _ = some ⟨((i + 1) % size_t_mod + k) % size_t_mod,
            Sum.inl (S.step^[k] (S.step p))⟩ := ih
      _ = some ⟨(i + (k + 1)) % size_t_mod, Sum.inl (S.step^[k + 1] p)⟩ := by
            rw [harith, hiter]

/-- C10: The tagged-union discriminant is the index field itself —
`is_iterator()` tests the stored index against the reserved marker
`2^64 - 1`; `begin()` creates index `0`, `end()` creates the marker index,
and pre-increment adds one mod `2^64`; hence an iterator advanced `k`
times from `begin()` is classified mid-sequence for every `k` below
`2^64 - 1`, while after exactly `2^64 - 1` advances its storage still
holds the underlying iterator but the index equals the marker, so it is
misclassified as terminal. -/
theorem index_is_discriminant {Pos Lim Val : Type} (S : Source Pos Lim Val)
    (v : indexed_view_type Pos Lim) :
    (∀ it : iterator Pos Lim,
        it.is_iterator = decide (it.index ≠ sentinel_marker)) ∧
    (v.begin).index = 0 ∧
    (v.end_).index = sentinel_marker ∧
    (∀ (i : Nat) (p : Pos), iterator.inc S ⟨i, Sum.inl p⟩ =
        some ⟨(i + 1) % size_t_mod, Sum.inl (S.step p)⟩) ∧
    (∀ k : Nat, k < sentinel_marker →
        iterator.incN S k v.begin =
            some ⟨k, Sum.inl (S.step^[k] v.source_begin)⟩ ∧
          iterator.is_iterator
            (⟨k, Sum.inl (S.step^[k] v.source_begin)⟩ : iterator Pos Lim) =
            true) ∧
    iterator.incN S sentinel_marker v.begin =
        some ⟨sentinel_marker,
          Sum.inl (S.step^[sentinel_marker] v.source_begin)⟩ ∧
    iterator.is_iterator
        (⟨sentinel_marker, Sum.inl (S.step^[sentinel_marker] v.source_begin)⟩ :
          iterator Pos Lim) = false := by
  have hzero : (0 : Nat) < size_t_mod := by norm_num [size_t_mod]
  refine ⟨fun it => rfl, rfl, rfl, ?_, ?_, ?_, ?_⟩
  · intro i p
    simp [iterator.inc, iterator.get_source_iterator]
  · intro k hk
    have hmod : k % size_t_mod = k :=
      Nat.mod_eq_of_lt (Nat.lt_of_lt_of_le hk (Nat.le_of_lt sentinel_marker_lt))
    constructor
    · have := incN_inl S k 0 v.source_begin hzero
      simpa [indexed_view_type.begin, indexed_view_type.beginS, hmod]
        using this
    · simp [iterator.is_iterator, Nat.ne_of_lt hk]
  · have hmod : sentinel_marker % size_t_mod = sentinel_marker :=
      Nat.mod_eq_of_lt sentinel_marker_lt
    have := incN_inl S sentinel_marker 0 v.source_begin hzero
    simpa [indexed_view_type.begin, indexed_view_type.beginS, hmod]
      using this
  · simp [iterator.is_iterator]

/-- Witness for C10: one advance from `begin()` over a concrete list
source stays classified mid-sequence. -/
theorem index_is_discriminant_witness :
    1 < sentinel_marker ∧
    (iterator.incN (listSource Nat) 1 (listView [7, 8]).begin =
        some ⟨1, Sum.inl
          ((listSource Nat).step^[1] (listView [7, 8]).source_begin)⟩ ∧
      iterator.is_iterator
        (⟨1, Sum.inl
            ((listSource Nat).step^[1] (listView [7, 8]).source_begin)⟩ :
          iterator (List Nat) Unit) = true) :=
  ⟨by decide,
    (index_is_discriminant (listSource Nat) (listView [7, 8])).2.2.2.2.1 1
      (by decide)⟩
